import Mathlib

/-!
Verification of the npack runtime virtual-filesystem (VFS) preload, as emitted by
`src/bundler/dev/generateVFSCode.js`.  The JavaScript in that file is shallowly
embedded here: strings become `List Char`, the asset store becomes an ordered
association list (JS object keys iterate in insertion order), and each runtime
function (`__NPACK_normalizePath`, `__NPACK_getFromVFS`, `__NPACK_isInVFS`,
`__NPACK_listVFSDir`, the `fs` wrappers and `VFSMigrationSource`) becomes a pure
Lean function translated statement by statement from the source.  Execution of
foreign JavaScript text (the `new Function` call inside `getMigration`), the
regex-based import/export rewriting it feeds, and base64 decoding are abstracted
as parameters of a `LoaderEnv`, since JS evaluation itself is outside the
embedding; everything surrounding them is concrete and executable.
-/

namespace Npack

/-- JS strings are modelled as lists of characters. -/
abbrev Str := List Char

/-- Coerce a Lean string literal into the model's string type. -/
def str (s : String) : Str := s.data

/-- JS `s.startsWith(pat)`: `chPre pat s` is true when `pat` is a leading run of `s`. -/
def chPre : Str → Str → Bool
  | [], _ => true
  | _ :: _, [] => false
  | a :: as, b :: bs => a = b && chPre as bs

/-- JS `s.endsWith(pat)`: true when `pat` is a trailing run of `s`. -/
def chSuf (pat s : Str) : Bool := chPre pat.reverse s.reverse

/-- JS `s.includes(pat)`: substring occurrence test. -/
def chHasSub (pat : Str) : Str → Bool
  | [] => chPre pat []
  | a :: as => chPre pat (a :: as) || chHasSub pat as

/-- JS `s.split(c)` for a single-character separator. -/
def splitCh (c : Char) : Str → List Str
  | [] => [[]]
  | a :: as =>
    if a = c then [] :: splitCh c as
    else
      match splitCh c as with
      | [] => [[a]]
      | h :: t => (a :: h) :: t

/-- Fuelled worker for `splitSub`; the fuel is an upper bound on the number of
characters still to be consumed, so it never runs out when started at `s.length`. -/
def splitSubGo (pat : Str) : Nat → Str → List Str
  | _, [] => [[]]
  | 0, s => [s]
  | fuel + 1, a :: as =>
    if chPre pat (a :: as) then
      [] :: splitSubGo pat fuel ((a :: as).drop pat.length)
    else
      match splitSubGo pat fuel as with
      | [] => [[a]]
      | h :: t => (a :: h) :: t

/-- JS `s.split(pat)` for a non-empty string separator (the only form the VFS uses). -/
def splitSub (pat s : Str) : List Str :=
  if pat = [] then [s] else splitSubGo pat s.length s

/-- JS `s.replace(pat, rep)` with a plain-string pattern: replaces the first
occurrence only, identity when there is none. -/
def replOnce (pat rep : Str) : Str → Str
  | [] => []
  | a :: as =>
    if chPre pat (a :: as) then rep ++ (a :: as).drop pat.length
    else a :: replOnce pat rep as

/-- Fuelled embedding of the collapse loop
`while (normalized.includes("//")) normalized = normalized.replace("//", "/")`.
Each iteration shortens the string by one, so `s.length` fuel always suffices. -/
def collapseGo : Nat → Str → Str
  | 0, s => s
  | fuel + 1, s =>
    if chHasSub (str "//") s then collapseGo fuel (replOnce (str "//") (str "/") s)
    else s

/-- The separator-collapsing loop started with adequate fuel. -/
def collapseSl (s : Str) : Str := collapseGo s.length s

/-- JS `s.lastIndexOf(pat)`, as an `Option` instead of `-1` for a miss. -/
def lastOcc (pat s : Str) : Option Nat :=
  ((List.range (s.length + 1)).filter (fun i => chPre pat (s.drop i))).getLast?

/-- JS UTF-16 code-unit string comparison (`<=`), adequate for the ASCII store keys. -/
def chLe : Str → Str → Bool
  | [], _ => true
  | _ :: _, [] => false
  | a :: as, b :: bs => if a = b then chLe as bs else decide (a < b)

/-- One insertion step of the sort used to model `Array.prototype.sort()`. -/
def insertSorted (x : Str) : List Str → List Str
  | [] => [x]
  | y :: ys => if chLe x y then x :: y :: ys else y :: insertSorted x ys

/-- JS `Array.prototype.sort()` on an array of strings (default lexicographic order). -/
def sortStrings : List Str → List Str
  | [] => []
  | x :: xs => insertSorted x (sortStrings xs)

/-- Adjacency-sorted check for lists of strings. -/
def isSortedChain : List Str → Bool
  | [] => true
  | [_] => true
  | a :: b :: t => chLe a b && isSortedChain (b :: t)

/-- JS `Set` insertion preserving first-insertion order, as used by `__NPACK_listVFSDir`. -/
def setAdd (files : List Str) (x : Str) : List Str :=
  if x ∈ files then files else files ++ [x]

/-! ## Data model: the asset store -/

/-- One value of the `__NPACK_VFS` object: `{ content, encoding }` with
`encoding` either `"utf8"` or `"base64"`. -/
structure AssetRecord where
  content : Str
  encoding : Str
deriving DecidableEq, Repr

/-- The `__NPACK_VFS` object: key/record pairs in insertion order. -/
abbrev Vfs := List (Str × AssetRecord)

/-- JS property lookup `__NPACK_VFS[k]` (records are objects, hence always truthy). -/
def vfsLookup (vfs : Vfs) (k : Str) : Option AssetRecord :=
  (vfs.find? (fun e => e.1 = k)).map (fun e => e.2)

/-! ## Path Normalizer (`__NPACK_normalizePath`) -/

/-- Step 1: `filePath.toString().split("\\").join("/")`. -/
def toSlashes (s : Str) : Str := s.map (fun c => if c = '\\' then '/' else c)

/-- Step 2: strip a leading `file://` URI scheme. -/
def stripScheme (s : Str) : Str := if chPre (str "file://") s then s.drop 7 else s

/-- Step 3: `normalized.replace(/^[A-Z]:/i, '')` — drop a leading drive-letter marker. -/
def stripDrive : Str → Str
  | a :: b :: rest => if a.isAlpha && b = ':' then rest else a :: b :: rest
  | s => s

/-- Step 4: cut everything before the last `/dist/`, keeping its trailing slash
(`normalized.slice(distIndex + 5)`). -/
def stripDist (s : Str) : Str :=
  match lastOcc (str "/dist/") s with
  | some i => s.drop (i + 5)
  | none => s

/-- Step 5: strip the script's own `__dirname` when it prefixes the path. -/
def stripDirname (dirname s : Str) : Str :=
  if chPre dirname s then s.drop dirname.length else s

/-- Step 7: guarantee a leading slash. -/
def ensureLead (s : Str) : Str := if chPre (str "/") s then s else '/' :: s

/-- Embedding of `__NPACK_normalizePath`, parameterised by the runtime `__dirname` value.
Falsy input (the empty string) is returned unchanged, as in the source. -/
def normalizePath (dirname p : Str) : Str :=
  if p = [] then p
  else ensureLead (collapseSl (stripDirname dirname
    (stripDist (stripDrive (stripScheme (toSlashes p))))))

/-! ## Path Resolver (`__NPACK_isInVFS`, `__NPACK_getFromVFS`) -/

/-- Embedding of `__NPACK_isInVFS`: exact property hit, or any key related to the normalized
path by the `===` / `endsWith` tests of the loop. -/
def isInVFS (dirname : Str) (vfs : Vfs) (filePath : Str) : Bool :=
  (vfsLookup vfs (normalizePath dirname filePath)).isSome ||
    vfs.any (fun e =>
      decide (e.1 = normalizePath dirname filePath) ||
      chSuf (normalizePath dirname filePath) e.1 ||
      chSuf e.1 (normalizePath dirname filePath))

/-- The three per-entry tests of `__NPACK_getFromVFS`'s loop, in source order:
`normalized.endsWith(vfsPath)`, `vfsPath.endsWith(normalized)`, and the
filename-only comparison when both sides contain `/migrations/`. -/
def fallbackHit (normalized : Str) (e : Str × AssetRecord) : Bool :=
  chSuf e.1 normalized || chSuf normalized e.1 ||
    (chHasSub (str "/migrations/") e.1 && chHasSub (str "/migrations/") normalized &&
      decide ((splitCh '/' e.1).getLastD [] = (splitCh '/' normalized).getLastD []))

/-- The `for (const [vfsPath, data] of Object.entries(__NPACK_VFS))` loop:
first entry matching any per-entry test wins. -/
def findFallback (normalized : Str) : Vfs → Option AssetRecord
  | [] => none
  | e :: rest => if fallbackHit normalized e then some e.2 else findFallback normalized rest

/-- Embedding of `__NPACK_getFromVFS`: exact hit first, then the per-entry fallback loop. -/
def getFromVFS (dirname : Str) (vfs : Vfs) (filePath : Str) : Option AssetRecord :=
  match vfsLookup vfs (normalizePath dirname filePath) with
  | some data => some data
  | none => findFallback (normalizePath dirname filePath) vfs

/-! ## Directory Synthesizer (`__NPACK_listVFSDir`) -/

/-- The loop-invariant condition
`normalized.endsWith('/migrations') || normalized === '/migrations'`. -/
def migDirFlag (n : Str) : Bool :=
  chSuf (str "/migrations") n || decide (n = str "/migrations")

/-- One iteration of `__NPACK_listVFSDir`'s key loop: the plain prefix test adds
the first path segment after `normalized + "/"`; for a `/migrations`-suffixed
query the second branch also adds the first segment of any key under
`/migrations/` (computed with `split('/migrations/')[1]?.split('/')[0]`). -/
def listStep (n : Str) (mig : Bool) (files : List Str) (key : Str) : List Str :=
  let files1 :=
    if chPre (n ++ str "/") key then
      let firstPart := (splitCh '/' (key.drop (n.length + 1))).headD []
      if firstPart ≠ [] then setAdd files firstPart else files
    else files
  if mig then
    if chPre (str "/migrations/") key then
      match (splitSub (str "/migrations/") key).get? 1 with
      | some s1 =>
        let fileName := (splitCh '/' s1).headD []
        if fileName ≠ [] ∧ fileName ∉ files1 then files1 ++ [fileName] else files1
      | none => files1
    else files1
  else files1

/-- Embedding of `__NPACK_listVFSDir`: scan every store key, return `null` (here `none`)
rather than an empty listing when nothing matched. -/
def listVFSDir (dirname : Str) (vfs : Vfs) (dirPath : Str) : Option (List Str) :=
  if vfs.foldl (fun acc e => listStep (normalizePath dirname dirPath)
      (migDirFlag (normalizePath dirname dirPath)) acc e.1) [] = [] then none
  else some (vfs.foldl (fun acc e => listStep (normalizePath dirname dirPath)
      (migDirFlag (normalizePath dirname dirPath)) acc e.1) [])

/-! ## Filesystem Interceptor

The wrapped primitives.  Return values live in `JsVal`; a thrown error or a
rejected promise is an `Except.error`.  `Buffer.from(content, encoding)` and its
`toString('utf8')` are kept as symbolic constructors — no claim depends on the
byte-level decoding, only on which branch produced the value. -/

/-- A synthesized directory entry: the object literal built by the `scandir`
and `opendir` wrappers. -/
structure Dirent where
  name : Str
  isFile : Bool
  isDirectory : Bool
  isBlockDevice : Bool
  isCharacterDevice : Bool
  isSymbolicLink : Bool
  isFIFO : Bool
  isSocket : Bool
deriving DecidableEq, Repr

/-- Values a wrapped primitive can return. -/
inductive JsVal where
  | bufferOf (content encoding : Str)
  | utf8Of (content encoding : Str)
  | jsBool (b : Bool)
  | statObj (isFile isDir isSymlink : Bool) (size : Nat)
  | nameList (names : List Str)
  | direntList (ents : List Dirent)
  | dirObj (path : Str) (ents : List Dirent)
  | fromReal (tag : Nat)
deriving DecidableEq, Repr

/-- A thrown JS `Error`, identified by its message. -/
structure JsError where
  message : Str
deriving DecidableEq, Repr

/-- Outcome of a primitive: a value, or a thrown error / rejected promise. -/
abbrev JsRes := Except JsError JsVal

/-- The `options` argument of the fs primitives: absent, a bare string, or an
object with an optional `encoding` property. -/
inductive JsOpts where
  | undef
  | strOpt (s : Str)
  | objEncoding (enc : Option Str)
deriving DecidableEq, Repr

/-- Test `options === "utf8" || options?.encoding === "utf8"`. -/
def wantsUtf8 : JsOpts → Bool
  | .strOpt s => decide (s = str "utf8")
  | .objEncoding (some e) => decide (e = str "utf8")
  | _ => false

/-- Byte length of `Buffer.from(content, encoding)` for the two encodings the
bundler emits (`utf8` text, or base64 where the decoded size is 3/4 of the
alphabet characters). -/
def bufByteLength (content encoding : Str) : Nat :=
  if encoding = str "base64" then ((content.filter (fun c => c.isAlphanum || c = '+' || c = '/')).length * 3) / 4
  else (content.map Char.utf8Size).sum

/-- The type of an original (un-wrapped) fs primitive. -/
abbrev FsPrim := Str → JsOpts → JsRes

/-- Wrapper installed over `fs.readFileSync`. -/
def readFileSyncW (dirname : Str) (vfs : Vfs) (orig : FsPrim) (p : Str) (o : JsOpts) : JsRes :=
  match getFromVFS dirname vfs p with
  | some data =>
    if wantsUtf8 o then .ok (.utf8Of data.content data.encoding)
    else .ok (.bufferOf data.content data.encoding)
  | none => orig p o

/-- Wrapper installed over `fs.promises.readFile` (textually identical body). -/
def readFilePW (dirname : Str) (vfs : Vfs) (orig : FsPrim) (p : Str) (o : JsOpts) : JsRes :=
  match getFromVFS dirname vfs p with
  | some data =>
    if wantsUtf8 o then .ok (.utf8Of data.content data.encoding)
    else .ok (.bufferOf data.content data.encoding)
  | none => orig p o

/-- Wrapper installed over `fs.existsSync`. -/
def existsSyncW (dirname : Str) (vfs : Vfs) (orig : Str → JsRes) (p : Str) : JsRes :=
  match listVFSDir dirname vfs p with
  | some _ => .ok (.jsBool true)
  | none => if isInVFS dirname vfs p then .ok (.jsBool true) else orig p

/-- Wrapper installed over `fs.statSync`. -/
def statSyncW (dirname : Str) (vfs : Vfs) (orig : FsPrim) (p : Str) (o : JsOpts) : JsRes :=
  match getFromVFS dirname vfs p with
  | some data => .ok (.statObj true false false (bufByteLength data.content data.encoding))
  | none =>
    match listVFSDir dirname vfs p with
    | some _ => .ok (.statObj false true false 0)
    | none => orig p o

/-- Wrapper installed over `fs.readdirSync`. -/
def readdirSyncW (dirname : Str) (vfs : Vfs) (orig : FsPrim) (p : Str) (o : JsOpts) : JsRes :=
  match listVFSDir dirname vfs p with
  | some files => .ok (.nameList files)
  | none => orig p o

/-- Wrapper installed over `fs.promises.readdir` (textually identical body). -/
def readdirPW (dirname : Str) (vfs : Vfs) (orig : FsPrim) (p : Str) (o : JsOpts) : JsRes :=
  match listVFSDir dirname vfs p with
  | some files => .ok (.nameList files)
  | none => orig p o

/-- The directory-entry object literal both the `scandir` and `opendir`
wrappers synthesize for a child name. -/
def mkVfsDirent (name : Str) : Dirent :=
  { name := name
    isFile := chHasSub (str ".") name
    isDirectory := !chHasSub (str ".") name
    isBlockDevice := false
    isCharacterDevice := false
    isSymbolicLink := false
    isFIFO := false
    isSocket := false }

/-- Wrapper installed over `fs.promises.scandir`; `origScan` is `none` when the
host runtime has no such primitive (the usual case), making the miss path fall
back to the captured `fs.promises.readdir`. -/
def scandirW (dirname : Str) (vfs : Vfs) (origScan : Option FsPrim) (origRd : FsPrim)
    (p : Str) (o : JsOpts) : JsRes :=
  match listVFSDir dirname vfs p with
  | some files => .ok (.direntList (files.map mkVfsDirent))
  | none =>
    match origScan with
    | some f => f p o
    | none => origRd p o

/-- Wrapper installed over `fs.promises.opendir`: a directory object whose
iterator and `read()` yield the synthesized entries. -/
def opendirW (dirname : Str) (vfs : Vfs) (orig : FsPrim) (p : Str) (o : JsOpts) : JsRes :=
  match listVFSDir dirname vfs p with
  | some files => .ok (.dirObj p (files.map mkVfsDirent))
  | none => orig p o

/-- The mutable set of fs entry points the preload patches. -/
structure FsFuns where
  readFileSync : FsPrim
  readFile : FsPrim
  existsSync : Str → JsRes
  statSync : FsPrim
  lstatSync : FsPrim
  readdirSync : FsPrim
  readdir : FsPrim
  scandir : Option FsPrim
  opendir : FsPrim

/-- The installation block of the preload: capture every current primitive
(`__NPACK_ORIG_FS.x` into the `__NPACK_*` constants), then assign the wrappers.
The `lstatSync` wrapper delegates to the freshly patched `statSync`. -/
def installInterceptors (dirname : Str) (vfs : Vfs) (fs : FsFuns) : FsFuns :=
  { readFileSync := readFileSyncW dirname vfs fs.readFileSync
    readFile := readFilePW dirname vfs fs.readFile
    existsSync := existsSyncW dirname vfs fs.existsSync
    statSync := statSyncW dirname vfs fs.statSync
    lstatSync := statSyncW dirname vfs fs.statSync
    readdirSync := readdirSyncW dirname vfs fs.readdirSync
    readdir := readdirPW dirname vfs fs.readdir
    scandir := some (scandirW dirname vfs fs.scandir fs.readdir)
    opendir := opendirW dirname vfs fs.opendir }

/-- Closure structure of one patched fs slot: each run of the installation code
reads the slot (`const __NPACK_X = fs.x`) and stores a new wrapper closing over
that captured value (`fs.x = function(...) { ... __NPACK_X ... }`). -/
inductive PrimClosure where
  | original
  | wrapper (captured : PrimClosure)
deriving DecidableEq, Repr

/-- Effect of one installation run on one fs slot. -/
def installStep (slot : PrimClosure) : PrimClosure := .wrapper slot

/-- How many wrapper layers sit on a slot. -/
def wrapDepth : PrimClosure → Nat
  | .original => 0
  | .wrapper c => wrapDepth c + 1

/-- Observable behavior of a (possibly multiply wrapped) `readFileSync` slot. -/
def primSem (dirname : Str) (vfs : Vfs) (orig : FsPrim) : PrimClosure → FsPrim
  | .original => orig
  | .wrapper c => readFileSyncW dirname vfs (primSem dirname vfs orig c)

/-! ## Dynamic Module Loader (`VFSMigrationSource`)

`getMigration` decodes the stored script, rewrites its import/export syntax and
runs it with `new Function(...)`.  Base64 decoding, the regex rewriting pass and
JS execution itself cannot be embedded and are supplied by a `LoaderEnv`; the
control flow around them — store lookup, the absence of any cross-call cache,
the try/catch, the logging — is translated directly.  `E` is the type of a
script's exports object. -/

/-- Host-supplied pieces of the loader that are opaque JS execution. -/
structure LoaderEnv (E : Type) where
  decodeB64 : Str → Str
  rewriteCode : Str → Str
  runScript : Str → Except JsError E

/-- Decoding step `Buffer.from(content, encoding).toString('utf8')` for a store record. -/
def decodeRec (env : LoaderEnv E) (data : AssetRecord) : Str :=
  if data.encoding = str "base64" then env.decodeB64 data.content else data.content

/-- Console output produced by `getMigration`, in emission order. -/
inductive LogEntry where
  | loading (fullPath : Str)
  | loaded (migration : Str)
  | loadFailed (message : Str)
  | transformedCode (excerpt : Str)
deriving DecidableEq, Repr

/-- What one `getMigration` call produces: its return-or-throw, the scripts it
executed (one entry per `new Function` run of a migration body), and its log. -/
structure LoadOutcome (E : Type) where
  result : Except JsError E
  execs : List Str
  log : List LogEntry

/-- Embedding of `VFSMigrationSource.getMigration`.  Note: no cache is consulted or filled —
the store lookup, decode, rewrite and execution happen on every call. -/
def getMigration (env : LoaderEnv E) (vfs : Vfs) (migration : Str) : LoadOutcome E :=
  let fullPath := str "/migrations/" ++ migration
  match vfsLookup vfs fullPath with
  | none =>
    { result := .error ⟨str "Migration not found in VFS: " ++ fullPath⟩
      execs := []
      log := [.loading fullPath] }
  | some data =>
    let code := env.rewriteCode (decodeRec env data)
    match env.runScript code with
    | .ok exports =>
      { result := .ok exports
        execs := [fullPath]
        log := [.loading fullPath, .loaded migration] }
    | .error e =>
      { result := .error e
        execs := [fullPath]
        log := [.loading fullPath, .loadFailed e.message, .transformedCode (code.take 500)] }

/-- Process-level state threaded through loader calls: the store plus the
accumulated console log.  `getMigration` keeps no other state. -/
structure ProcState where
  vfs : Vfs
  log : List LogEntry

/-- One `getMigration` call at the process level. -/
def runLoad (env : LoaderEnv E) (st : ProcState) (k : Str) : Except JsError E × ProcState :=
  let out := getMigration env st.vfs k
  (out.result, { vfs := st.vfs, log := st.log ++ out.log })

/-- Two consecutive `getMigration` calls for the same key: both results, and
the concatenated execution traces. -/
def loadTwice (env : LoaderEnv E) (vfs : Vfs) (k : Str) :
    (Except JsError E × Except JsError E) × List Str :=
  let first := getMigration env vfs k
  let second := getMigration env vfs k
  ((first.result, second.result), first.execs ++ second.execs)

/-- Embedding of `VFSMigrationSource.getMigrations`: keys under `/migrations/` ending in
`.js`, the namespace marker replaced away, sorted. -/
def getMigrations (vfs : Vfs) : List Str :=
  sortStrings (((vfs.map Prod.fst).filter
    (fun p => chPre (str "/migrations/") p && chSuf (str ".js") p)).map
    (fun p => replOnce (str "/migrations/") [] p))

/-- Embedding of `VFSMigrationSource.getMigrationName`: the identity. -/
def getMigrationName (migration : Str) : Str := migration

/-! ## Whole-system step relation

Every externally invokable operation of the preload, acting on the process
state.  Used to state that no operation ever changes the store. -/

/-- Environment fixed at process start: `__dirname`, the loader's opaque parts,
and the un-wrapped fs primitives. -/
structure RunEnv (E : Type) where
  dirname : Str
  loader : LoaderEnv E
  fsOrig : FsFuns

/-- The operations the packaged application can invoke against the VFS layer. -/
inductive VfsOp where
  | resolveOp (p : Str)
  | listDirOp (p : Str)
  | isInOp (p : Str)
  | readFileSyncOp (p : Str) (o : JsOpts)
  | readFileOp (p : Str) (o : JsOpts)
  | existsSyncOp (p : Str)
  | statSyncOp (p : Str) (o : JsOpts)
  | lstatSyncOp (p : Str) (o : JsOpts)
  | readdirSyncOp (p : Str) (o : JsOpts)
  | readdirOp (p : Str) (o : JsOpts)
  | scandirOp (p : Str) (o : JsOpts)
  | opendirOp (p : Str) (o : JsOpts)
  | getMigrationsOp
  | getMigrationNameOp (m : Str)
  | getMigrationOp (k : Str)

/-- Result of one operation. -/
inductive OpOut (E : Type) where
  | res (r : JsRes)
  | found (r : Option AssetRecord)
  | listing (n : Option (List Str))
  | flag (b : Bool)
  | ids (l : List Str)
  | name (s : Str)
  | loaded (r : Except JsError E)

/-- One step of the system: every case reads the store through the definitions
above; only the loader also appends to the log. -/
def stepOp (env : RunEnv E) (op : VfsOp) (st : ProcState) : OpOut E × ProcState :=
  match op with
  | .resolveOp p => (.found (getFromVFS env.dirname st.vfs p), st)
  | .listDirOp p => (.listing (listVFSDir env.dirname st.vfs p), st)
  | .isInOp p => (.flag (isInVFS env.dirname st.vfs p), st)
  | .readFileSyncOp p o => (.res (readFileSyncW env.dirname st.vfs env.fsOrig.readFileSync p o), st)
  | .readFileOp p o => (.res (readFilePW env.dirname st.vfs env.fsOrig.readFile p o), st)
  | .existsSyncOp p => (.res (existsSyncW env.dirname st.vfs env.fsOrig.existsSync p), st)
  | .statSyncOp p o => (.res (statSyncW env.dirname st.vfs env.fsOrig.statSync p o), st)
  | .lstatSyncOp p o => (.res (statSyncW env.dirname st.vfs env.fsOrig.statSync p o), st)
  | .readdirSyncOp p o => (.res (readdirSyncW env.dirname st.vfs env.fsOrig.readdirSync p o), st)
  | .readdirOp p o => (.res (readdirPW env.dirname st.vfs env.fsOrig.readdir p o), st)
  | .scandirOp p o => (.res (scandirW env.dirname st.vfs env.fsOrig.scandir env.fsOrig.readdir p o), st)
  | .opendirOp p o => (.res (opendirW env.dirname st.vfs env.fsOrig.opendir p o), st)
  | .getMigrationsOp => (.ids (getMigrations st.vfs), st)
  | .getMigrationNameOp m => (.name (getMigrationName m), st)
  | .getMigrationOp k =>
    let r := runLoad env.loader st k
    (.loaded r.1, r.2)

/-! ## Comparison definitions written from the specification's words

Used only to contrast the code's behavior with what the spec claims. -/

/-- First store entry whose key stands in the (either-direction) suffix
relation with the normalized path. -/
def findFirstSuffixHit (n : Str) : Vfs → Option AssetRecord
  | [] => none
  | e :: rest =>
    if chSuf e.1 n || chSuf n e.1 then some e.2 else findFirstSuffixHit n rest

/-- First store entry matching by trailing filename inside the migrations
namespace. -/
def findFirstNameHit (n : Str) : Vfs → Option AssetRecord
  | [] => none
  | e :: rest =>
    if chHasSub (str "/migrations/") e.1 && chHasSub (str "/migrations/") n &&
        decide ((splitCh '/' e.1).getLastD [] = (splitCh '/' n).getLastD []) then some e.2
    else findFirstNameHit n rest

/-- The resolver as claim C2 words it: the three strategies applied globally in
order — exact match, then the suffix strategy over all keys, then the
filename-only strategy over all keys — the first strategy that hits winning. -/
def resolveStrategyOrdered (dirname : Str) (vfs : Vfs) (p : Str) : Option AssetRecord :=
  match vfsLookup vfs (normalizePath dirname p) with
  | some data => some data
  | none =>
    match findFirstSuffixHit (normalizePath dirname p) vfs with
    | some data => some data
    | none => findFirstNameHit (normalizePath dirname p) vfs

/-- One step of the directory listing as claim C5 words it: collect the first
path segment following `normalize(d) + "/"` of each store key. -/
def claimStep (n : Str) (files : List Str) (key : Str) : List Str :=
  if chPre (n ++ str "/") key then
    let firstPart := (splitCh '/' (key.drop (n.length + 1))).headD []
    if firstPart ≠ [] then setAdd files firstPart else files
  else files

/-- The Directory Synthesizer as claim C5 words it: exactly the first segments
after the normalized prefix, absent when no store key has that prefix. -/
def listChildrenPerClaim (dirname : Str) (vfs : Vfs) (dirPath : Str) : Option (List Str) :=
  if vfs.foldl (fun acc e => claimStep (normalizePath dirname dirPath) acc e.1) [] = [] then none
  else some (vfs.foldl (fun acc e => claimStep (normalizePath dirname dirPath) acc e.1) [])

/-! ## Concrete fixtures for witnesses and counterexamples -/

/-- A migration script record stored as plain text. -/
def recMigA : AssetRecord := ⟨str "module.exports = 1", str "utf8"⟩

/-- A second, distinguishable record. -/
def recMigB : AssetRecord := ⟨str "module.exports = 2", str "utf8"⟩

/-- A one-script store under the migrations namespace. -/
def vfsOne : Vfs := [(str "/migrations/001_a.js", recMigA)]

/-- A store whose key order makes the filename fallback fire before a
later-ordered suffix match. -/
def vfsTwo : Vfs := [(str "/migrations/lib/m.js", recMigA), (str "/migrations/m.js", recMigB)]

/-- A loader environment whose script execution always succeeds. -/
def envOk : LoaderEnv Nat := ⟨fun s => s, fun s => s, fun _ => .ok 7⟩

/-- A loader environment whose script execution always throws. -/
def envBoom : LoaderEnv Nat := ⟨fun s => s, fun s => s, fun _ => .error ⟨str "boom"⟩⟩

/-- A store with a single non-migrations asset. -/
def vfsCfg : Vfs := [(str "/config/app.json", recMigA)]

/-- A store whose only migration sits in a dotted sub-directory. -/
def vfsDot : Vfs := [(str "/migrations/v1.2/x.js", recMigA)]

/-- A process state over the one-script store with an empty log. -/
def stOne : ProcState := ⟨vfsOne, []⟩

/-- A stand-in original primitive for the real filesystem. -/
def gOrig : FsPrim := fun _ _ => .ok (.fromReal 0)

/-- A stand-in original `existsSync`. -/
def gOrigE : Str → JsRes := fun _ => .ok (.jsBool false)

/-! ## Helper lemmas -/

theorem findFallback_eq_none {n : Str} :
    ∀ {l : Vfs}, findFallback n l = none → ∀ e ∈ l, fallbackHit n e = false := by
  intro l
  induction l with
  | nil => intro _ e he; cases he
  | cons a rest ih =>
    intro h e he
    unfold findFallback at h
    by_cases ha : fallbackHit n a = true
    · rw [if_pos ha] at h; cases h
    · rcases List.mem_cons.mp he with rfl | hrest
      · exact Bool.eq_false_iff.mpr ha
      · exact ih (by rwa [if_neg ha] at h) e hrest

theorem isInVFS_eq_false {dirname : Str} {vfs : Vfs} {p : Str}
    (h : getFromVFS dirname vfs p = none) : isInVFS dirname vfs p = false := by
  have hl : vfsLookup vfs (normalizePath dirname p) = none := by
    unfold getFromVFS at h
    cases hl : vfsLookup vfs (normalizePath dirname p) with
    | none => rfl
    | some d => rw [hl] at h; cases h
  have hf : findFallback (normalizePath dirname p) vfs = none := by
    unfold getFromVFS at h
    rwa [hl] at h
  unfold isInVFS
  rw [hl]
  simp only [Option.isSome_none, Bool.false_or, List.any_eq_false]
  intro e he
  have hfb := findFallback_eq_none hf e he
  unfold fallbackHit at hfb
  simp only [Bool.or_eq_false_iff, Bool.and_eq_false_iff] at hfb
  have hkey : ¬(e.1 = normalizePath dirname p) := by
    intro hkeq
    have : (vfsLookup vfs (normalizePath dirname p)).isSome = true := by
      unfold vfsLookup
      cases hfind : vfs.find? (fun x => x.1 = normalizePath dirname p) with
      | none =>
        have := List.find?_eq_none.mp hfind e he
        simp [hkeq] at this
      | some x => simp
    rw [hl] at this
    cases this
  simp [hkey, hfb.1.1, hfb.1.2]

theorem chPre_le_length {pat s : Str} (h : chPre pat s = true) : pat.length ≤ s.length := by
  induction pat generalizing s with
  | nil => simp
  | cons a as ih =>
    cases s with
    | nil => simp [chPre] at h
    | cons b bs =>
      simp only [chPre, Bool.and_eq_true] at h
      have := ih h.2
      simp only [List.length_cons]
      omega

theorem replOnce_dd_length {s : Str} (h : chHasSub (str "//") s = true) :
    (replOnce (str "//") (str "/") s).length + 1 = s.length := by
  induction s with
  | nil => simp [chHasSub, str, chPre] at h
  | cons a as ih =>
    by_cases hp : chPre (str "//") (a :: as) = true
    · have hl : (str "//").length ≤ (a :: as).length := chPre_le_length hp
      simp only [str] at hl
      unfold replOnce
      rw [if_pos hp]
      simp only [List.length_append, List.length_drop, str, String.data]
      simp_all
    · have h' : chHasSub (str "//") as = true := by
        unfold chHasSub at h
        rcases Bool.or_eq_true_iff.mp h with h1 | h2
        · exact absurd h1 hp
        · exact h2
      unfold replOnce
      rw [if_neg hp]
      simp only [List.length_cons]
      rw [← ih h']

theorem collapseGo_no_dd : ∀ (fuel : Nat) (s : Str), s.length ≤ fuel →
    chHasSub (str "//") (collapseGo fuel s) = false := by
  intro fuel
  induction fuel with
  | zero =>
    intro s hs
    have : s = [] := List.length_eq_zero.mp (Nat.le_zero.mp hs)
    subst this
    decide
  | succ n ih =>
    intro s hs
    unfold collapseGo
    by_cases h : chHasSub (str "//") s = true
    · rw [if_pos h]
      apply ih
      have := replOnce_dd_length h
      omega
    · rw [if_neg h]
      exact Bool.eq_false_iff.mpr h

theorem collapseGo_id {s : Str} (h : chHasSub (str "//") s = false) :
    ∀ fuel, collapseGo fuel s = s := by
  intro fuel
  cases fuel with
  | zero => rfl
  | succ n =>
    unfold collapseGo
    rw [if_neg (Bool.eq_false_iff.mp h)]

theorem ensureLead_lead (s : Str) : chPre (str "/") (ensureLead s) = true := by
  unfold ensureLead
  by_cases h : chPre (str "/") s = true
  · rw [if_pos h]; exact h
  · rw [if_neg h]
    simp [str, chPre]

theorem ensureLead_no_dd {s : Str} (h : chHasSub (str "//") s = false) :
    chHasSub (str "//") (ensureLead s) = false := by
  unfold ensureLead
  by_cases hp : chPre (str "/") s = true
  · rw [if_pos hp]; exact h
  · rw [if_neg hp]
    have hp' : chPre [ '/' ] s = false := Bool.eq_false_iff.mpr hp
    unfold chHasSub
    rw [h]
    have : chPre (str "//") ('/' :: s) = chPre [ '/' ] s := by
      simp [str, chPre]
    rw [this, hp']
    rfl

theorem normalizePath_lead (dirname : Str) {p : Str} (hp : p ≠ []) :
    chPre (str "/") (normalizePath dirname p) = true := by
  unfold normalizePath
  rw [if_neg hp]
  exact ensureLead_lead _

theorem normalizePath_no_dd (dirname : Str) {p : Str} (hp : p ≠ []) :
    chHasSub (str "//") (normalizePath dirname p) = false := by
  unfold normalizePath
  rw [if_neg hp]
  exact ensureLead_no_dd (collapseGo_no_dd _ _ le_rfl)

theorem mem_replOnce {c : Char} {pat rep s : Str} (h : c ∈ replOnce pat rep s) :
    c ∈ rep ∨ c ∈ s := by
  induction s with
  | nil => simp [replOnce] at h
  | cons a as ih =>
    unfold replOnce at h
    by_cases hp : chPre pat (a :: as) = true
    · rw [if_pos hp] at h
      rcases List.mem_append.mp h with h1 | h2
      · exact Or.inl h1
      · exact Or.inr (List.mem_of_mem_drop h2)
    · rw [if_neg hp] at h
      rcases List.mem_cons.mp h with rfl | h2
      · exact Or.inr (List.mem_cons_self _ _)
      · rcases ih h2 with h3 | h3
        · exact Or.inl h3
        · exact Or.inr (List.mem_cons_of_mem _ h3)

theorem mem_collapseGo {c : Char} : ∀ {fuel : Nat} {s : Str},
    c ∈ collapseGo fuel s → c ∈ s ∨ c = '/' := by
  intro fuel
  induction fuel with
  | zero => intro s h; exact Or.inl h
  | succ n ih =>
    intro s h
    unfold collapseGo at h
    by_cases hd : chHasSub (str "//") s = true
    · rw [if_pos hd] at h
      rcases ih h with h1 | h1
      · rcases mem_replOnce h1 with h2 | h2
        · right
          simp [str] at h2
          exact h2
        · exact Or.inl h2
      · exact Or.inr h1
    · rw [if_neg hd] at h
      exact Or.inl h

theorem mem_ensureLead {c : Char} {s : Str} (h : c ∈ ensureLead s) : c ∈ s ∨ c = '/' := by
  unfold ensureLead at h
  by_cases hp : chPre (str "/") s = true
  · rw [if_pos hp] at h; exact Or.inl h
  · rw [if_neg hp] at h
    rcases List.mem_cons.mp h with rfl | h2
    · exact Or.inr rfl
    · exact Or.inl h2

theorem mem_stripDrive {c : Char} {s : Str} (h : c ∈ stripDrive s) : c ∈ s := by
  cases s with
  | nil => exact h
  | cons a t =>
    cases t with
    | nil => exact h
    | cons b rest =>
      simp only [stripDrive] at h
      by_cases hc : (a.isAlpha && b = ':') = true
      · rw [if_pos hc] at h
        exact List.mem_cons_of_mem _ (List.mem_cons_of_mem _ h)
      · rwa [if_neg hc] at h

theorem mem_stripScheme {c : Char} {s : Str} (h : c ∈ stripScheme s) : c ∈ s := by
  unfold stripScheme at h
  by_cases hp : chPre (str "file://") s = true
  · rw [if_pos hp] at h; exact List.mem_of_mem_drop h
  · rwa [if_neg hp] at h

theorem mem_stripDist {c : Char} {s : Str} (h : c ∈ stripDist s) : c ∈ s := by
  unfold stripDist at h
  cases ho : lastOcc (str "/dist/") s with
  | none => rwa [ho] at h
  | some i => rw [ho] at h; exact List.mem_of_mem_drop h

theorem mem_stripDirname {c : Char} {dirname s : Str} (h : c ∈ stripDirname dirname s) :
    c ∈ s := by
  unfold stripDirname at h
  by_cases hp : chPre dirname s = true
  · rw [if_pos hp] at h; exact List.mem_of_mem_drop h
  · rwa [if_neg hp] at h

theorem normalizePath_noBS (dirname : Str) {p : Str} (hp : p ≠ []) :
    ∀ c ∈ normalizePath dirname p, c ≠ '\\' := by
  intro c hc
  unfold normalizePath at hc
  rw [if_neg hp] at hc
  rcases mem_ensureLead hc with hc1 | rfl
  · rcases mem_collapseGo hc1 with hc2 | rfl
    · have hc3 := mem_stripScheme (mem_stripDrive (mem_stripDist (mem_stripDirname hc2)))
      rcases List.mem_map.mp hc3 with ⟨a, _, rfl⟩
      by_cases ha : a = '\\'
      · simp [ha]
      · simp [ha]
    · decide
  · decide

theorem toSlashes_id {s : Str} (h : ∀ c ∈ s, c ≠ '\\') : toSlashes s = s := by
  induction s with
  | nil => rfl
  | cons a as ih =>
    unfold toSlashes
    simp only [List.map_cons]
    rw [if_neg (h a (List.mem_cons_self _ _))]
    have := ih (fun c hc => h c (List.mem_cons_of_mem _ hc))
    unfold toSlashes at this
    rw [this]

theorem chPre_single {c : Char} {s : Str} (h : chPre [c] s = true) :
    ∃ t, s = c :: t := by
  cases s with
  | nil => simp [chPre] at h
  | cons b bs =>
    simp only [chPre, Bool.and_eq_true, decide_eq_true_eq] at h
    exact ⟨bs, by rw [h.1]⟩

theorem chHasSub_of_drop {pat s : Str} : ∀ {i : Nat},
    chPre pat (s.drop i) = true → chHasSub pat s = true := by
  induction s with
  | nil =>
    intro i h
    simp only [List.drop_nil] at h
    simpa [chHasSub] using h
  | cons a as ih =>
    intro i h
    cases i with
    | zero =>
      simp only [List.drop_zero] at h
      unfold chHasSub
      rw [h]
      rfl
    | succ n =>
      simp only [List.drop_succ_cons] at h
      unfold chHasSub
      rw [ih h]
      simp

theorem lastOcc_eq_none {pat s : Str} (h : chHasSub pat s = false) :
    lastOcc pat s = none := by
  unfold lastOcc
  have : (List.range (s.length + 1)).filter (fun i => chPre pat (s.drop i)) = [] := by
    rw [List.filter_eq_nil_iff]
    intro i _
    intro hi
    rw [chHasSub_of_drop hi] at h
    cases h
  rw [this]
  rfl

/-- A path that already begins with a slash passes unchanged through every
normalization step, provided it contains no backslash, no double slash, no
`/dist/` marker, and does not begin with the base directory. -/
theorem normalizePath_idem (dirname : Str) {p : Str} (hp : p ≠ [])
    (hdist : chHasSub (str "/dist/") (normalizePath dirname p) = false)
    (hdir : chPre dirname (normalizePath dirname p) = false) :
    normalizePath dirname (normalizePath dirname p) = normalizePath dirname p := by
  have hlead : chPre (str "/") (normalizePath dirname p) = true := normalizePath_lead dirname hp
  have hnodd : chHasSub (str "//") (normalizePath dirname p) = false := normalizePath_no_dd dirname hp
  have hnobs : ∀ c ∈ normalizePath dirname p, c ≠ '\\' := normalizePath_noBS dirname hp
  set q := normalizePath dirname p with hqdef
  obtain ⟨t, hq⟩ := chPre_single (by simpa [str] using hlead)
  have hqne : q ≠ [] := by rw [hq]; intro hcon; cases hcon
  unfold normalizePath
  rw [if_neg hqne]
  rw [toSlashes_id hnobs]
  have hscheme : stripScheme q = q := by
    unfold stripScheme
    rw [if_neg]
    intro hcon
    rw [hq] at hcon
    simp [str, chPre] at hcon
  rw [hscheme]
  have hdrive : stripDrive q = q := by
    rw [hq]
    cases t with
    | nil => rfl
    | cons b bs =>
      simp only [stripDrive]
      rw [if_neg]
      intro hcon
      simp at hcon
  rw [hdrive]
  have hdist2 : stripDist q = q := by
    unfold stripDist
    rw [lastOcc_eq_none hdist]
  rw [hdist2]
  have hdir2 : stripDirname dirname q = q := by
    unfold stripDirname
    rw [if_neg (Bool.eq_false_iff.mp hdir)]
  rw [hdir2]
  unfold collapseSl
  rw [collapseGo_id hnodd]
  unfold ensureLead
  rw [if_pos hlead]

theorem chLe_total (a b : Str) : chLe a b = true ∨ chLe b a = true := by
  induction a generalizing b with
  | nil => left; rfl
  | cons x xs ih =>
    cases b with
    | nil => right; rfl
    | cons y ys =>
      by_cases hxy : x = y
      · subst hxy
        simp only [chLe, if_pos rfl]
        exact ih ys
      · rcases lt_trichotomy x y with hlt | heq | hgt
        · left; simp [chLe, hxy, hlt]
        · exact absurd heq hxy
        · right; simp [chLe, Ne.symm hxy, hgt]

theorem insertSorted_ne_nil (x : Str) (l : List Str) : insertSorted x l ≠ [] := by
  cases l with
  | nil => simp [insertSorted]
  | cons y ys =>
    unfold insertSorted
    by_cases h : chLe x y = true
    · rw [if_pos h]; simp
    · rw [if_neg h]; simp

theorem isSortedChain_insert (x : Str) : ∀ l : List Str, isSortedChain l = true →
    isSortedChain (insertSorted x l) = true := by
  intro l
  induction l with
  | nil => intro _; rfl
  | cons y ys ih =>
    intro h
    have hys : isSortedChain ys = true := by
      cases ys with
      | nil => rfl
      | cons z zs =>
        have hh : (chLe y z && isSortedChain (z :: zs)) = true := h
        simp only [Bool.and_eq_true] at hh
        exact hh.2
    unfold insertSorted
    by_cases hxy : chLe x y = true
    · rw [if_pos hxy]
      show (chLe x y && isSortedChain (y :: ys)) = true
      rw [hxy, h]
      rfl
    · rw [if_neg hxy]
      have hyx : chLe y x = true := (chLe_total x y).resolve_left (by simpa using hxy)
      cases ys with
      | nil =>
        show (chLe y x && isSortedChain [x]) = true
        rw [hyx]
        rfl
      | cons z zs =>
        have hyz : chLe y z = true := by
          have hh : (chLe y z && isSortedChain (z :: zs)) = true := h
          simp only [Bool.and_eq_true] at hh
          exact hh.1
        have hins := ih hys
        show isSortedChain (y :: insertSorted x (z :: zs)) = true
        unfold insertSorted
        by_cases hxz : chLe x z = true
        · rw [if_pos hxz]
          show (chLe y x && isSortedChain (x :: z :: zs)) = true
          have hch : isSortedChain (x :: z :: zs) = true := by
            show (chLe x z && isSortedChain (z :: zs)) = true
            rw [hxz, hys]
            rfl
          rw [hyx, hch]
          rfl
        · rw [if_neg hxz]
          have hins' : isSortedChain (z :: insertSorted x zs) = true := by
            unfold insertSorted at hins
            rwa [if_neg hxz] at hins
          show (chLe y z && isSortedChain (z :: insertSorted x zs)) = true
          rw [hyz, hins']
          rfl

theorem sortStrings_sorted : ∀ l : List Str, isSortedChain (sortStrings l) = true := by
  intro l
  induction l with
  | nil => rfl
  | cons x xs ih => exact isSortedChain_insert x _ ih

theorem mem_insertSorted {a x : Str} : ∀ {l : List Str},
    (a ∈ insertSorted x l ↔ a = x ∨ a ∈ l) := by
  intro l
  induction l with
  | nil => simp [insertSorted]
  | cons y ys ih =>
    unfold insertSorted
    by_cases h : chLe x y = true
    · rw [if_pos h]
      simp [List.mem_cons]
    · rw [if_neg h]
      simp only [List.mem_cons, ih]
      tauto

theorem mem_sortStrings {a : Str} : ∀ {l : List Str}, (a ∈ sortStrings l ↔ a ∈ l) := by
  intro l
  induction l with
  | nil => simp [sortStrings]
  | cons x xs ih =>
    simp only [sortStrings, mem_insertSorted, ih, List.mem_cons]

theorem replOnce_of_chPre {pat rep s : Str} (hne : pat ≠ []) (h : chPre pat s = true) :
    replOnce pat rep s = rep ++ s.drop pat.length := by
  cases s with
  | nil =>
    cases pat with
    | nil => exact absurd rfl hne
    | cons a as => simp [chPre] at h
  | cons b bs =>
    unfold replOnce
    rw [if_pos h]

theorem readFileSyncW_idem (dirname : Str) (vfs : Vfs) (g : FsPrim) :
    readFileSyncW dirname vfs (readFileSyncW dirname vfs g) = readFileSyncW dirname vfs g := by
  funext p o
  cases h : getFromVFS dirname vfs p <;> simp [readFileSyncW, h]

theorem readFilePW_idem (dirname : Str) (vfs : Vfs) (g : FsPrim) :
    readFilePW dirname vfs (readFilePW dirname vfs g) = readFilePW dirname vfs g := by
  funext p o
  cases h : getFromVFS dirname vfs p <;> simp [readFilePW, h]

theorem existsSyncW_idem (dirname : Str) (vfs : Vfs) (g : Str → JsRes) :
    existsSyncW dirname vfs (existsSyncW dirname vfs g) = existsSyncW dirname vfs g := by
  funext p
  cases h : listVFSDir dirname vfs p <;> cases hi : isInVFS dirname vfs p <;>
    simp [existsSyncW, h, hi]

theorem statSyncW_idem (dirname : Str) (vfs : Vfs) (g : FsPrim) :
    statSyncW dirname vfs (statSyncW dirname vfs g) = statSyncW dirname vfs g := by
  funext p o
  cases h : getFromVFS dirname vfs p <;> cases hl : listVFSDir dirname vfs p <;>
    simp [statSyncW, h, hl]

theorem readdirSyncW_idem (dirname : Str) (vfs : Vfs) (g : FsPrim) :
    readdirSyncW dirname vfs (readdirSyncW dirname vfs g) = readdirSyncW dirname vfs g := by
  funext p o
  cases h : listVFSDir dirname vfs p <;> simp [readdirSyncW, h]

theorem readdirPW_idem (dirname : Str) (vfs : Vfs) (g : FsPrim) :
    readdirPW dirname vfs (readdirPW dirname vfs g) = readdirPW dirname vfs g := by
  funext p o
  cases h : listVFSDir dirname vfs p <;> simp [readdirPW, h]

theorem opendirW_idem (dirname : Str) (vfs : Vfs) (g : FsPrim) :
    opendirW dirname vfs (opendirW dirname vfs g) = opendirW dirname vfs g := by
  funext p o
  cases h : listVFSDir dirname vfs p <;> simp [opendirW, h]

theorem scandirW_absorb (dirname : Str) (vfs : Vfs) (os : Option FsPrim) (g g2 : FsPrim) :
    scandirW dirname vfs (some (scandirW dirname vfs os g)) g2 = scandirW dirname vfs os g := by
  funext p o
  cases h : listVFSDir dirname vfs p <;> simp [scandirW, h]

/-! ## Claim theorems -/

/-- Claim C1, counterexample: two `getMigration` calls for the same key execute
the underlying migration script twice — the execution trace of `loadTwice` has
two entries, not the single entry a per-process exports cache would produce. -/
theorem c1_no_cache_counterexample :
    (loadTwice envOk vfsOne (str "001_a.js")).2 =
      [str "/migrations/001_a.js", str "/migrations/001_a.js"] ∧
    (loadTwice envOk vfsOne (str "001_a.js")).2.length ≠ 1 := by
  decide

/-- Claim C1 (amended): `getMigration` keeps no cache.  Calling it twice with
the same key returns equal exports (execution is a pure function of the store
and the key), but the underlying script is executed once per call — the
two-call execution trace contains the module's path twice. -/
theorem c1_load_twice_reexecutes {E : Type} (env : LoaderEnv E) (vfs : Vfs) (k : Str)
    (data : AssetRecord)
    (hfind : vfsLookup vfs (str "/migrations/" ++ k) = some data) :
    (loadTwice env vfs k).1.1 = (loadTwice env vfs k).1.2 ∧
    (loadTwice env vfs k).2 = [str "/migrations/" ++ k, str "/migrations/" ++ k] := by
  constructor
  · rfl
  · simp only [loadTwice, getMigration, hfind]
    cases env.runScript (env.rewriteCode (decodeRec env data)) <;> simp

/-- Closed instance of C1's amended theorem on the one-script store. -/
theorem c1_load_twice_reexecutes_witness :
    vfsLookup vfsOne (str "/migrations/" ++ str "001_a.js") = some recMigA ∧
    ((loadTwice envOk vfsOne (str "001_a.js")).1.1 = (loadTwice envOk vfsOne (str "001_a.js")).1.2 ∧
     (loadTwice envOk vfsOne (str "001_a.js")).2 =
       [str "/migrations/" ++ str "001_a.js", str "/migrations/" ++ str "001_a.js"]) :=
  ⟨by decide, c1_load_twice_reexecutes envOk vfsOne (str "001_a.js") recMigA (by decide)⟩

/-- Claim C2, counterexample: with the store ordered `/migrations/lib/m.js`
before `/migrations/m.js` and the request `/x/migrations/m.js`, the suffix
strategy does hit the second key (the claim then demands its record), yet
`__NPACK_getFromVFS` returns the first key's record via the filename rule,
because the strategies are tried per entry, not globally in order. -/
theorem c2_strategy_order_counterexample :
    getFromVFS (str "/app") vfsTwo (str "/x/migrations/m.js") = some recMigA ∧
    resolveStrategyOrdered (str "/app") vfsTwo (str "/x/migrations/m.js") = some recMigB ∧
    recMigA ≠ recMigB ∧
    chSuf (str "/migrations/m.js") (normalizePath (str "/app") (str "/x/migrations/m.js")) = true := by
  decide

/-- Claim C2 (amended): the resolver checks the exact match first — whenever the
normalized path is a store key, exactly that key's record is returned and no
fallback is consulted — and otherwise scans store entries in key order,
returning the first entry related by any of the suffix, reverse-suffix, or
migrations-filename tests. -/
theorem c2_resolver_exact_first (dirname : Str) (vfs : Vfs) (p : Str) :
    (∀ data, vfsLookup vfs (normalizePath dirname p) = some data →
      getFromVFS dirname vfs p = some data) ∧
    (∀ e rest, vfs = e :: rest →
      vfsLookup vfs (normalizePath dirname p) = none →
      fallbackHit (normalizePath dirname p) e = true →
      getFromVFS dirname vfs p = some e.2) := by
  constructor
  · intro data h
    unfold getFromVFS
    rw [h]
  · intro e rest hv h hh
    subst hv
    unfold getFromVFS
    rw [h]
    unfold findFallback
    rw [if_pos hh]

/-- Closed instance of C2's amended theorem: an exact hit, and a first-entry
fallback hit. -/
theorem c2_resolver_exact_first_witness :
    vfsLookup vfsOne (normalizePath (str "/app") (str "/migrations/001_a.js")) = some recMigA ∧
    getFromVFS (str "/app") vfsOne (str "/migrations/001_a.js") = some recMigA ∧
    getFromVFS (str "/app") vfsTwo (str "/x/migrations/m.js") = some recMigA :=
  ⟨by decide,
   (c2_resolver_exact_first (str "/app") vfsOne (str "/migrations/001_a.js")).1 recMigA (by decide),
   (c2_resolver_exact_first (str "/app") vfsTwo (str "/x/migrations/m.js")).2
     (str "/migrations/lib/m.js", recMigA) [(str "/migrations/m.js", recMigB)]
     rfl (by decide) (by decide)⟩

/-- Claim C3: on a path with no store resolution and no synthesized listing,
every wrapped primitive — `readFileSync`, `promises.readFile`, `existsSync`,
`statSync`, `readdirSync`, `promises.readdir`, `promises.opendir` — returns or
throws exactly what the original primitive does on the same arguments. -/
theorem c3_interceptor_transparency (dirname : Str) (vfs : Vfs) (p : Str)
    (hres : getFromVFS dirname vfs p = none)
    (hlist : listVFSDir dirname vfs p = none) :
    (∀ (g : FsPrim) (o : JsOpts), readFileSyncW dirname vfs g p o = g p o) ∧
    (∀ (g : FsPrim) (o : JsOpts), readFilePW dirname vfs g p o = g p o) ∧
    (∀ g : Str → JsRes, existsSyncW dirname vfs g p = g p) ∧
    (∀ (g : FsPrim) (o : JsOpts), statSyncW dirname vfs g p o = g p o) ∧
    (∀ (g : FsPrim) (o : JsOpts), readdirSyncW dirname vfs g p o = g p o) ∧
    (∀ (g : FsPrim) (o : JsOpts), readdirPW dirname vfs g p o = g p o) ∧
    (∀ (g : FsPrim) (o : JsOpts), opendirW dirname vfs g p o = g p o) := by
  have hin := isInVFS_eq_false hres
  exact ⟨fun g o => by simp [readFileSyncW, hres],
    fun g o => by simp [readFilePW, hres],
    fun g => by simp [existsSyncW, hlist, hin],
    fun g o => by simp [statSyncW, hres, hlist],
    fun g o => by simp [readdirSyncW, hlist],
    fun g o => by simp [readdirPW, hlist],
    fun g o => by simp [opendirW, hlist]⟩

/-- Closed instance of C3 on a concrete unvirtualized path. -/
theorem c3_interceptor_transparency_witness :
    getFromVFS (str "/app") vfsOne (str "/other.txt") = none ∧
    listVFSDir (str "/app") vfsOne (str "/other.txt") = none ∧
    readFileSyncW (str "/app") vfsOne gOrig (str "/other.txt") JsOpts.undef =
      gOrig (str "/other.txt") JsOpts.undef ∧
    existsSyncW (str "/app") vfsOne gOrigE (str "/other.txt") = gOrigE (str "/other.txt") :=
  ⟨by decide, by decide,
   (c3_interceptor_transparency (str "/app") vfsOne (str "/other.txt")
     (by decide) (by decide)).1 gOrig JsOpts.undef,
   (c3_interceptor_transparency (str "/app") vfsOne (str "/other.txt")
     (by decide) (by decide)).2.2.1 gOrigE⟩

/-- Claim C4, counterexample: the installation code has no reinstall guard, so
running it a second time is not a no-op — the slot ends up holding a wrapper
whose captured "original" is itself a wrapper, i.e. wrapped twice, not once. -/
theorem c4_reinstall_not_noop_counterexample :
    installStep (installStep PrimClosure.original) ≠ installStep PrimClosure.original ∧
    wrapDepth (installStep (installStep PrimClosure.original)) = 2 ∧
    wrapDepth (installStep PrimClosure.original) = 1 := by
  decide

/-- Claim C4 (amended): a second run of the installation wraps every primitive
again rather than being a no-op, but the double wrap is harmless — the
reinstalled function table is extensionally equal to the singly-installed one,
and a doubly-wrapped slot behaves exactly like a singly-wrapped slot. -/
theorem c4_double_install_observably_equal (dirname : Str) (vfs : Vfs) (fs : FsFuns) :
    installInterceptors dirname vfs (installInterceptors dirname vfs fs) =
      installInterceptors dirname vfs fs ∧
    ∀ g : FsPrim,
      primSem dirname vfs g (installStep (installStep PrimClosure.original)) =
        primSem dirname vfs g (installStep PrimClosure.original) := by
  constructor
  · simp only [installInterceptors, FsFuns.mk.injEq]
    exact ⟨readFileSyncW_idem dirname vfs fs.readFileSync,
      readFilePW_idem dirname vfs fs.readFile,
      existsSyncW_idem dirname vfs fs.existsSync,
      statSyncW_idem dirname vfs fs.statSync,
      statSyncW_idem dirname vfs fs.statSync,
      readdirSyncW_idem dirname vfs fs.readdirSync,
      readdirPW_idem dirname vfs fs.readdir,
      congrArg some (scandirW_absorb dirname vfs fs.scandir fs.readdir
        (readdirPW dirname vfs fs.readdir)),
      opendirW_idem dirname vfs fs.opendir⟩
  · exact fun g => readFileSyncW_idem dirname vfs g

/-- Claim C5, counterexample: for the directory `/x/migrations` no store key
starts with the normalized prefix, so the claim demands an absent listing, yet
`__NPACK_listVFSDir`'s migrations branch returns the key under `/migrations/`. -/
theorem c5_listdir_migrations_counterexample :
    listVFSDir (str "/app") vfsOne (str "/x/migrations") = some [str "001_a.js"] ∧
    listChildrenPerClaim (str "/app") vfsOne (str "/x/migrations") = none := by
  decide

/-- Claim C5 (amended): for every directory whose normalized form does not end
in `/migrations`, the synthesized listing is exactly the set of first path
segments following `normalize(d) + "/"` across store keys, and absent when that
set is empty; a `/migrations`-suffixed query additionally draws entries from all
keys under `/migrations/`, so it can be non-absent without any prefix match. -/
theorem c5_listdir_plain_dirs (dirname : Str) (vfs : Vfs) (d : Str)
    (h : chSuf (str "/migrations") (normalizePath dirname d) = false) :
    listVFSDir dirname vfs d = listChildrenPerClaim dirname vfs d := by
  have hm : migDirFlag (normalizePath dirname d) = false := by
    unfold migDirFlag
    rw [h]
    simp only [Bool.false_or, decide_eq_false_iff_not]
    intro he
    rw [he] at h
    exact absurd h (by decide)
  unfold listVFSDir listChildrenPerClaim
  rw [hm]
  rfl

/-- Closed instance of C5's amended theorem on a non-migrations directory. -/
theorem c5_listdir_plain_dirs_witness :
    chSuf (str "/migrations") (normalizePath (str "/app") (str "/config")) = false ∧
    listVFSDir (str "/app") vfsCfg (str "/config") =
      listChildrenPerClaim (str "/app") vfsCfg (str "/config") ∧
    listVFSDir (str "/app") vfsCfg (str "/config") = some [str "app.json"] :=
  ⟨by decide, c5_listdir_plain_dirs (str "/app") vfsCfg (str "/config") (by decide), by decide⟩

/-- Claim C6, counterexample: `__NPACK_normalizePath` is not idempotent — the
leading slash it adds to `dist/x` manufactures a `/dist/` marker that a second
pass strips — and the empty string is returned without a leading slash. -/
theorem c6_normalize_not_idempotent_counterexample :
    normalizePath (str "/app") (normalizePath (str "/app") (str "dist/x")) ≠
      normalizePath (str "/app") (str "dist/x") ∧
    normalizePath (str "/app") (str "dist/x") = str "/dist/x" ∧
    normalizePath (str "/app") (str "/dist/x") = str "/x" ∧
    chPre (str "/") (normalizePath (str "/app") []) = false := by
  decide

/-- Claim C6 (amended): for every non-empty input the normalized result has
repeated separators collapsed and exactly one leading slash; re-normalizing is
the identity only when the first pass's result contains no `/dist/` marker and
does not begin with the base directory — otherwise a second pass can strip
further. -/
theorem c6_normalize_shape_and_conditional_idem (dirname p : Str) (hp : p ≠ []) :
    chPre (str "/") (normalizePath dirname p) = true ∧
    chHasSub (str "//") (normalizePath dirname p) = false ∧
    (chHasSub (str "/dist/") (normalizePath dirname p) = false →
      chPre dirname (normalizePath dirname p) = false →
      normalizePath dirname (normalizePath dirname p) = normalizePath dirname p) :=
  ⟨normalizePath_lead dirname hp, normalizePath_no_dd dirname hp,
   fun h1 h2 => normalizePath_idem dirname hp h1 h2⟩

/-- Closed instance of C6's amended theorem: a backslashed, double-slashed
input gains exactly one leading slash, loses the duplicates, and re-normalizes
to itself. -/
theorem c6_normalize_shape_witness :
    (str "a\\b//c" ≠ ([] : Str)) ∧
    (chPre (str "/") (normalizePath (str "/app") (str "a\\b//c")) = true ∧
     chHasSub (str "//") (normalizePath (str "/app") (str "a\\b//c")) = false ∧
     (chHasSub (str "/dist/") (normalizePath (str "/app") (str "a\\b//c")) = false →
       chPre (str "/app") (normalizePath (str "/app") (str "a\\b//c")) = false →
       normalizePath (str "/app") (normalizePath (str "/app") (str "a\\b//c")) =
         normalizePath (str "/app") (str "a\\b//c"))) :=
  ⟨by decide, c6_normalize_shape_and_conditional_idem (str "/app") (str "a\\b//c") (by decide)⟩

/-- Claim C7: a script execution error inside `getMigration` is caught, the
failing call's log contains the offending module path and the 500-character
excerpt of the rewritten source, the very same error is re-raised to the
caller, and the failure is scoped — the store is unchanged and any later load
returns exactly what it would have returned had the failing call never
happened. -/
theorem c7_load_failure_scoped {E : Type} (env : LoaderEnv E) (st : ProcState) (k : Str)
    (data : AssetRecord) (e : JsError)
    (hfind : vfsLookup st.vfs (str "/migrations/" ++ k) = some data)
    (hrun : env.runScript (env.rewriteCode (decodeRec env data)) = .error e) :
    (runLoad env st k).1 = .error e ∧
    (runLoad env st k).2.vfs = st.vfs ∧
    LogEntry.loading (str "/migrations/" ++ k) ∈ (runLoad env st k).2.log ∧
    LogEntry.loadFailed e.message ∈ (runLoad env st k).2.log ∧
    LogEntry.transformedCode ((env.rewriteCode (decodeRec env data)).take 500) ∈
      (runLoad env st k).2.log ∧
    ∀ k2, (runLoad env (runLoad env st k).2 k2).1 = (runLoad env st k2).1 := by
  simp only [runLoad, getMigration, hfind, hrun]
  refine ⟨trivial, trivial, ?_, ?_, ?_, fun k2 => trivial⟩ <;> simp

/-- Closed instance of C7 on the one-script store with an always-failing
script environment. -/
theorem c7_load_failure_scoped_witness :
    vfsLookup vfsOne (str "/migrations/" ++ str "001_a.js") = some recMigA ∧
    envBoom.runScript (envBoom.rewriteCode (decodeRec envBoom recMigA)) =
      .error ⟨str "boom"⟩ ∧
    (runLoad envBoom stOne (str "001_a.js")).1 = .error ⟨str "boom"⟩ ∧
    LogEntry.loadFailed (str "boom") ∈ (runLoad envBoom stOne (str "001_a.js")).2.log ∧
    (runLoad envBoom stOne (str "001_a.js")).2.vfs = vfsOne :=
  ⟨by decide, rfl,
   (c7_load_failure_scoped envBoom stOne (str "001_a.js") recMigA ⟨str "boom"⟩
     (by decide) rfl).1,
   (c7_load_failure_scoped envBoom stOne (str "001_a.js") recMigA ⟨str "boom"⟩
     (by decide) rfl).2.2.2.1,
   (c7_load_failure_scoped envBoom stOne (str "001_a.js") recMigA ⟨str "boom"⟩
     (by decide) rfl).2.1⟩

/-- Claim C8: `getMigrations` returns exactly the store keys under
`/migrations/` ending in `.js` with the 12-character namespace marker stripped,
in ascending lexicographic order, and `getMigrationName` is the identity. -/
theorem c8_getMigrations_sorted_strip (vfs : Vfs) :
    isSortedChain (getMigrations vfs) = true ∧
    (∀ s, s ∈ getMigrations vfs ↔
      ∃ k, (∃ data, (k, data) ∈ vfs) ∧ chPre (str "/migrations/") k = true ∧
        chSuf (str ".js") k = true ∧ s = k.drop 12) ∧
    (∀ m, getMigrationName m = m) := by
  have h12 : (str "/migrations/").length = 12 := by decide
  refine ⟨sortStrings_sorted _, ?_, fun m => rfl⟩
  intro s
  unfold getMigrations
  rw [mem_sortStrings]
  constructor
  · intro hs
    rcases List.mem_map.mp hs with ⟨k, hk, rfl⟩
    rcases List.mem_filter.mp hk with ⟨hkm, hcond⟩
    simp only [Bool.and_eq_true] at hcond
    rcases List.mem_map.mp hkm with ⟨kv, hkv, rfl⟩
    refine ⟨kv.1, ⟨kv.2, by simpa using hkv⟩, hcond.1, hcond.2, ?_⟩
    rw [replOnce_of_chPre (by decide) hcond.1, h12]
    simp
  · rintro ⟨k, ⟨data, hmem⟩, hpre, hsuf, rfl⟩
    apply List.mem_map.mpr
    refine ⟨k, List.mem_filter.mpr ⟨List.mem_map.mpr ⟨(k, data), hmem, rfl⟩, ?_⟩, ?_⟩
    · simp [hpre, hsuf]
    · rw [replOnce_of_chPre (by decide) hpre, h12]
      simp

/-- Claim C9: no operation of the VFS layer — resolver, synthesizer, membership
probe, any wrapped primitive, or any `VFSMigrationSource` method — changes the
store: after any step the key set and every record are exactly as before. -/
theorem c9_store_immutable {E : Type} (env : RunEnv E) (op : VfsOp) (st : ProcState) :
    (stepOp env op st).2.vfs = st.vfs ∧
    ∀ k data, ((k, data) ∈ (stepOp env op st).2.vfs ↔ (k, data) ∈ st.vfs) := by
  have h : (stepOp env op st).2.vfs = st.vfs := by cases op <;> rfl
  exact ⟨h, fun k data => by rw [h]⟩

/-- Claim C10: every entry the intercepted `scandir` and `opendir` primitives
yield for a virtualized directory reports `isFile()` true exactly when its name
contains a dot, `isDirectory()` as the negation, and every other kind predicate
false — regardless of what the name denotes in the store's key space. -/
theorem c10_dirent_kind_heuristic (dirname : Str) (vfs : Vfs) (p : Str) (files : List Str)
    (h : listVFSDir dirname vfs p = some files) :
    (∀ (os : Option FsPrim) (g : FsPrim) (o : JsOpts),
      scandirW dirname vfs os g p o = .ok (.direntList (files.map mkVfsDirent))) ∧
    (∀ (g : FsPrim) (o : JsOpts),
      opendirW dirname vfs g p o = .ok (.dirObj p (files.map mkVfsDirent))) ∧
    ∀ ent ∈ files.map mkVfsDirent,
      ent.isFile = chHasSub (str ".") ent.name ∧
      ent.isDirectory = !ent.isFile ∧
      ent.isBlockDevice = false ∧
      ent.isCharacterDevice = false ∧
      ent.isSymbolicLink = false ∧
      ent.isFIFO = false ∧
      ent.isSocket = false := by
  refine ⟨fun os g o => by simp [scandirW, h], fun g o => by simp [opendirW, h], ?_⟩
  intro ent hent
  rcases List.mem_map.mp hent with ⟨nm, _, rfl⟩
  exact ⟨rfl, rfl, rfl, rfl, rfl, rfl, rfl⟩

/-- Closed instance of C10: the dotted child `v1.2` — a sub-directory in the
store's key space — is classified as a regular file. -/
theorem c10_dirent_kind_heuristic_witness :
    listVFSDir (str "/app") vfsDot (str "/migrations") = some [str "v1.2"] ∧
    scandirW (str "/app") vfsDot none gOrig (str "/migrations") JsOpts.undef =
      .ok (.direntList ([str "v1.2"].map mkVfsDirent)) ∧
    (mkVfsDirent (str "v1.2")).isFile = true ∧
    (mkVfsDirent (str "v1.2")).isDirectory = false :=
  ⟨by decide,
   (c10_dirent_kind_heuristic (str "/app") vfsDot (str "/migrations") [str "v1.2"]
     (by decide)).1 none gOrig JsOpts.undef,
   by decide, by decide⟩

end Npack
